import Mathlib

/-!
Shallow embedding of `tools/check_eof_newline.py` (class `EOFNewlineChecker`
and the check branch of `main`).  File contents are byte lists (`List Nat`);
reading a file yields `Option (List Nat)` where `none` models an I/O error
(`OSError`/`IOError`).  The mutable filesystem touched by `fix_eof_newline`
is a map from path strings to optional contents, together with predicates
saying which paths raise on backup-copy, read, and write.  The directory
tree walked by `discover_files` is a finite rose tree of named files and
named subdirectories, and `fnmatch` is Python's `fnmatch.fnmatch` on POSIX
(identity case-normalisation, `*`/`?`/`[...]` wildcards, `*` unanchored to
path separators).
-/

namespace EOFCheck

/-- Byte value of the LF character. -/
def lf : Nat := 10

/-- Byte value of the CR character. -/
def cr : Nat := 13

/-- Filesystem state for `fix_eof_newline`: current file contents plus which
paths fail on `shutil.copy2`, on opening for read, and on opening for write. -/
structure FS where
  files : String → Option (List Nat)
  copyFails : String → Bool
  readFails : String → Bool
  writeFails : String → Bool

/-- Backup destination: `file_path.with_suffix(file_path.suffix + ".bak")` appends `.bak` after
the original suffix, i.e. to the whole name. -/
def backupPath (p : String) : String := p ++ ".bak"

/-- Embeds `has_eof_newline` (lines 90-104).  `none` is an I/O error.  The
code seeks to the end; an empty file returns `True`; otherwise the final
byte is read as a one-byte string and compared against the tuple
`(b'\n', b'\r\n', b'\r')`. -/
def has_eof_newline : Option (List Nat) → Bool
  | none => false
  | some bs =>
    if bs.length = 0 then true
    else
      let last_char := bs.drop (bs.length - 1)
      (last_char == [lf]) || (last_char == [cr, lf]) || (last_char == [cr])

/-- Embeds `content.endswith((b'\n', b'\r\n', b'\r'))` from line 123. -/
def endsWithNewline (content : List Nat) : Bool :=
  [lf].isSuffixOf content || [cr, lf].isSuffixOf content || [cr].isSuffixOf content

/-- Result of `fix_eof_newline`: the returned boolean, whether the original
file was rewritten (lines 127-128 executed), and the filesystem afterwards. -/
structure FixResult where
  success : Bool
  wrote : Bool
  fs : FS

/-- Embeds `fix_eof_newline` (lines 106-134).  With `create_backup` the
backup copy happens first (`shutil.copy2`, which raises when the source is
missing or the copy fails); any `OSError`/`IOError` is caught and yields
`False` for this file.  Then the content is read; empty content or content
already ending in a newline returns `True` with no write; otherwise the
original bytes plus one LF are written back. -/
def fix_eof_newline (fs : FS) (p : String) (create_backup : Bool) : FixResult :=
  if create_backup && (fs.copyFails p || (fs.files p).isNone) then
    { success := false, wrote := false, fs := fs }
  else
    let fs1 : FS :=
      if create_backup then
        match fs.files p with
        | some c => { fs with files := fun q => if q = backupPath p then some c else fs.files q }
        | none => fs
      else fs
    if fs.readFails p then
      { success := false, wrote := false, fs := fs1 }
    else
      match fs1.files p with
      | none => { success := false, wrote := false, fs := fs1 }
      | some content =>
        if content.length = 0 then
          { success := true, wrote := false, fs := fs1 }
        else if endsWithNewline content then
          { success := true, wrote := false, fs := fs1 }
        else if fs.writeFails p then
          { success := false, wrote := false, fs := fs1 }
        else
          { success := true, wrote := true,
            fs := { fs1 with
                    files := fun q => if q = p then some (content ++ [lf]) else fs1.files q } }

/-- Embeds `self.text_extensions` (lines 44-58): extensions whose files always get
checked. -/
def text_extensions : List String :=
  [".cpp", ".hpp", ".cc", ".cxx", ".hxx", ".h", ".c",
   ".py", ".pyx", ".pyi",
   ".js", ".ts", ".jsx", ".tsx",
   ".css", ".scss", ".sass", ".less",
   ".html", ".htm", ".xml", ".svg",
   ".json", ".yaml", ".yml", ".toml",
   ".md", ".rst", ".txt",
   ".sh", ".bash", ".zsh", ".fish",
   ".cmake", ".cmake.in",
   ".proto", ".capnp",
   ".sql", ".sqlite",
   ".conf", ".cfg", ".ini",
   ".gitignore", ".gitattributes"]

/-- Embeds `self.special_files` (lines 61-65): names checked regardless of
extension. -/
def special_files : List String :=
  ["Makefile", "CMakeLists.txt", "Dockerfile", "Vagrantfile",
   "Jenkinsfile", "Pipfile", "requirements.txt", "setup.py",
   "pyproject.toml", "package.json", "tsconfig.json"]

/-- Embeds `pathlib.PurePath.suffix` of a file name: the substring from the last
dot, unless that dot is the first or the final character of the name. -/
def pySuffix (name : String) : String :=
  let cs := name.data
  let n := cs.length
  match cs.reverse.findIdx? (fun c => c = '.') with
  | none => ""
  | some k =>
    let i := n - 1 - k
    if 0 < i ∧ i < n - 1 then String.mk (cs.drop i) else ""

/-- Python `str.lower`, restricted to the ASCII case mapping that the
extension table exercises. -/
def lowerStr (s : String) : String := String.mk (s.data.map Char.toLower)

/-- Embeds `should_check_file` (lines 67-88).  The extension and special-name
tests read only the path; the 1024-byte heuristic opens the file, so only
there can the `OSError`/`IOError` handler (modelled by `none`) return
`False`. -/
def should_check_file (name : String) (content : Option (List Nat)) : Bool :=
  if lowerStr (pySuffix name) ∈ text_extensions then true
  else if name ∈ special_files then true
  else
    match content with
    | none => false
    | some bs =>
      let sample := bs.take 1024
      if sample.length = 0 then true
      else !(sample.contains 0)

/-- A token of a compiled `fnmatch` pattern: `*`, `?`, a literal character,
or a bracketed character class with optional negation. -/
inductive GlobTok where
  | star
  | anyOne
  | lit (c : Char)
  | cls (neg : Bool) (stuff : List Char)
deriving DecidableEq

/-- Whether the bracket opened just before `ps` has a closing `]`, using
`fnmatch.translate`'s scan: skip an initial `!`, then one literal `]`, then
search for `]`. -/
def hasCloseAfterBracket (ps : List Char) : Bool :=
  let ps1 := match ps with | '!' :: r => r | _ => ps
  let ps2 := match ps1 with | ']' :: r => r | _ => ps1
  ps2.contains ']'

mutual

/-- Tokenizes an `fnmatch` pattern as `fnmatch.translate` reads it: `*` and
`?` are wildcards, `[` opens a class when a closing `]` exists and is a
literal otherwise. -/
def tokChars : List Char → List GlobTok
  | [] => []
  | '*' :: ps => .star :: tokChars ps
  | '?' :: ps => .anyOne :: tokChars ps
  | '[' :: ps =>
    if hasCloseAfterBracket ps then
      match ps with
      | '!' :: ']' :: r => collectClass true [']'] r
      | '!' :: r => collectClass true [] r
      | ']' :: r => collectClass false [']'] r
      | r => collectClass false [] r
    else GlobTok.lit '[' :: tokChars ps
  | p :: ps => .lit p :: tokChars ps

/-- Collects the body of a bracketed class up to the closing `]` (which is
guaranteed to exist by `hasCloseAfterBracket`, so the `[]` case is dead
code) and resumes tokenizing after it. -/
def collectClass (neg : Bool) (acc : List Char) : List Char → List GlobTok
  | [] => []
  | ']' :: rest => .cls neg acc.reverse :: tokChars rest
  | c :: rest => collectClass neg (c :: acc) rest

end

/-- Membership of a character in a class body, with `a-b` ranges and
literal hyphens at the ends. -/
def charInClass : List Char → Char → Bool
  | [], _ => false
  | a :: '-' :: b :: rest, c => (decide (a ≤ c) && decide (c ≤ b)) || charInClass rest c
  | a :: rest, c => (c == a) || charInClass rest c

/-- Matches a token list against a string, `*` matching any run of
characters (including `/`, as in `fnmatch`'s `.*` with `re.DOTALL`). -/
def tokMatch : List GlobTok → List Char → Bool
  | [], s => s.isEmpty
  | .star :: ts, s => s.tails.any (fun t => tokMatch ts t)
  | .anyOne :: ts, s =>
    match s with
    | [] => false
    | _ :: cs => tokMatch ts cs
  | .lit p :: ts, s =>
    match s with
    | [] => false
    | c :: cs => (c == p) && tokMatch ts cs
  | .cls neg stuff :: ts, s =>
    match s with
    | [] => false
    | c :: cs => (neg != charInClass stuff c) && tokMatch ts cs

/-- Embeds `fnmatch.fnmatch(s, pat)` on a POSIX system. -/
def fnmatch (s pat : String) : Bool := tokMatch (tokChars pat.data) s.data

/-- Embeds `any(fnmatch.fnmatch(s, pattern) for pattern in pats)`. -/
def anyMatch (pats : List String) (s : String) : Bool := pats.any (fun p => fnmatch s p)

/-- Embeds `default_excludes` (lines 142-152). -/
def default_excludes : List String :=
  ["build", "cmake-build-*", "_deps", "CMakeFiles",
   ".git", ".svn", ".hg", ".bzr",
   "__pycache__", "*.pyc", "*.pyo", "*.pyd",
   "*.so", "*.dll", "*.dylib", "*.exe",
   "*.o", "*.obj", "*.a", "*.lib",
   "*.png", "*.jpg", "*.jpeg", "*.gif", "*.bmp", "*.ico",
   "*.pdf", "*.zip", "*.tar", "*.gz", "*.bz2",
   "node_modules", ".venv", "venv", ".env",
   ".idea", ".vscode", "*.swp", "*.swo", "*~"]

/-- A directory tree as `os.walk` sees it: regular files (name, bytes) and
subdirectories (name, subtree), in scan order. -/
inductive FSTree where
  | node : List (String × List Nat) → List (String × FSTree) → FSTree

/-- Embeds `str(file_path.relative_to(self.project_root))`: components joined
with `/`. -/
def joinRel : List String → String
  | [] => ""
  | [x] => x
  | x :: xs => x ++ "/" ++ joinRel xs

/-- The per-file filter of `discover_files` (lines 164-178): the bare
filename must match no exclude pattern, the filename or the path relative
to the project root must match an include pattern, and the file must pass
`should_check_file` (readable inside the walked tree). -/
def keepFile (excl incl : List String) (relStr name : String) (content : List Nat) : Bool :=
  !(anyMatch excl name) &&
  (anyMatch incl name || anyMatch incl relStr) &&
  should_check_file name (some content)

mutual

/-- The `os.walk` loop of `discover_files` (lines 157-179) below the
directory `pre` (path components relative to the project root): collects
this directory's surviving files, then recurses into subdirectories that
no exclude pattern prunes. -/
def discoverAux (excl incl : List String) (pre : List String) : FSTree → List (List String)
  | .node fils dirs =>
    (fils.filter (fun f => keepFile excl incl (joinRel (pre ++ [f.1])) f.1 f.2)).map
        (fun f => pre ++ [f.1])
      ++ discoverDirs excl incl pre dirs

/-- Walks the subdirectory list after the in-place pruning
`dirs[:] = [d for d in dirs if not any(fnmatch(d, pattern) ...)]`. -/
def discoverDirs (excl incl : List String) (pre : List String) :
    List (String × FSTree) → List (List String)
  | [] => []
  | (d, t) :: rest =>
    (if anyMatch excl d then [] else discoverAux excl incl (pre ++ [d]) t)
      ++ discoverDirs excl incl pre rest

end

/-- Codepoint-lexicographic strict order on character lists, the order
Python uses to compare the path strings in `sorted(files)`. -/
def charListLt : List Char → List Char → Bool
  | [], [] => false
  | [], _ :: _ => true
  | _ :: _, [] => false
  | a :: as, b :: bs => if a = b then charListLt as bs else decide (a < b)

/-- Strict order on relative paths via their joined strings. -/
def pathLt (a b : List String) : Bool := charListLt (joinRel a).data (joinRel b).data

/-- Ordered insertion for `sortPaths`. -/
def insertPath (x : List String) : List (List String) → List (List String)
  | [] => [x]
  | y :: ys => if pathLt y x then y :: insertPath x ys else x :: y :: ys

/-- Embeds `sorted(files)` (line 181): paths in ascending string order.  Distinct
files have distinct paths, so the sorted list is unique and an insertion
sort realises it. -/
def sortPaths : List (List String) → List (List String)
  | [] => []
  | x :: xs => insertPath x (sortPaths xs)

/-- Embeds `discover_files` (lines 136-181): user excludes are extended
with the defaults, a missing or empty include list means include-all, and
the walk results are sorted. -/
def discover_files (t : FSTree) (includeP excludeP : List String) : List (List String) :=
  let exclude_patterns := excludeP ++ default_excludes
  let include_patterns := if includeP.isEmpty then ["*"] else includeP
  sortPaths (discoverAux exclude_patterns include_patterns [] t)

/-- One line printed by the check branch of `main` (lines 274-340) or by
`check_files` (lines 183-198). -/
inductive OutLine where
  | banner
  | noFilesFound
  | foundFiles (n : Nat)
  | inclPattern (s : String)
  | fromFileLine (s : String)
  | exclPattern (s : String)
  | detailOk (p : String)
  | detailBad (p : String)
  | resultsHeader (ok bad : Nat)
  | missingHeader
  | missingFile (p : String)
  | moreFiles (n : Nat)
  | fixHint
  | backupHint
  | allCompliant (n : Nat)
deriving DecidableEq

/-- Embeds `check_files` (lines 183-198): partitions the input by
`has_eof_newline` preserving order, printing a per-file marker when
`show_details` is set. -/
def check_files (files : List (String × Option (List Nat))) (show_details : Bool) :
    List String × List String × List OutLine :=
  match files with
  | [] => ([], [], [])
  | (p, c) :: rest =>
    let r := check_files rest show_details
    if has_eof_newline c then
      (p :: r.1, r.2.1, (if show_details then [OutLine.detailOk p] else []) ++ r.2.2)
    else
      (r.1, p :: r.2.1, (if show_details then [OutLine.detailBad p] else []) ++ r.2.2)

/-- Embeds the `--check` run of `main` from the banner (line 274) to the
exit (lines 336-340), after project-root validation and file selection:
given the selected files with their readable contents, returns the printed
lines in order and the exit code. -/
def mainCheck (quiet show_details backup : Bool)
    (filterPat fromFile excludeArg : Option String)
    (files : List (String × Option (List Nat))) : List OutLine × Nat :=
  let pre := if quiet then [] else [OutLine.banner]
  if files.isEmpty then (pre ++ [OutLine.noFilesFound], 0)
  else
    let found :=
      if quiet then []
      else
        [OutLine.foundFiles files.length] ++
        (match filterPat with | some s => [OutLine.inclPattern s] | none => []) ++
        (match fromFile with | some s => [OutLine.fromFileLine s] | none => []) ++
        (match excludeArg with | some s => [OutLine.exclPattern s] | none => [])
    let r := check_files files show_details
    let results := if quiet then [] else [OutLine.resultsHeader r.1.length r.2.1.length]
    if r.2.1.isEmpty then
      (pre ++ found ++ r.2.2 ++ results ++
        (if quiet then [] else [OutLine.allCompliant files.length]), 0)
    else
      (pre ++ found ++ r.2.2 ++ results ++
        (if !show_details && !quiet then
          [OutLine.missingHeader] ++ (r.2.1.take 10).map OutLine.missingFile ++
          (if r.2.1.length > 10 then [OutLine.moreFiles (r.2.1.length - 10)] else [])
        else []) ++
        [OutLine.fixHint] ++ (if !backup then [OutLine.backupHint] else []), 1)

/-- Output lines that name an individual file. -/
def namesFile : OutLine → Bool
  | .missingFile _ => true
  | .detailOk _ => true
  | .detailBad _ => true
  | _ => false

/-- A no-failure filesystem holding one two-byte file `notes.txt`. -/
def demoFS : FS :=
  { files := fun q => if q = "notes.txt" then some [104, 105] else none,
    copyFails := fun _ => false,
    readFails := fun _ => false,
    writeFails := fun _ => false }

/-- A no-failure filesystem holding one empty file `empty.txt`. -/
def demoEmptyFS : FS :=
  { files := fun q => if q = "empty.txt" then some [] else none,
    copyFails := fun _ => false,
    readFails := fun _ => false,
    writeFails := fun _ => false }

/-- A filesystem where the backup copy of `notes.txt` raises. -/
def demoCopyFailFS : FS :=
  { files := fun q => if q = "notes.txt" then some [104, 105] else none,
    copyFails := fun q => q == "notes.txt",
    readFails := fun _ => false,
    writeFails := fun _ => false }

/-- A project tree with one checkable file at the root. -/
def demoTree : FSTree := .node [("a.py", [97, 10])] []

/-- A project tree with a file inside the subdirectory `d`. -/
def demoTreeD : FSTree := .node [] [("d", .node [("a.txt", [97])] [])]

/-- A tree planting a file inside an excluded directory `build`. -/
def demoTreeBuild : FSTree :=
  .node [("a.py", [97, 10])] [("build", .node [("planted.py", [98])] [])]

/-- The backup path is always distinct from the original path. -/
theorem backupPath_ne (p : String) : backupPath p ≠ p := by
  intro h
  have hlen : (p ++ ".bak").length = p.length + 4 := by
    rw [String.length_append]
    rfl
  rw [backupPath] at h
  have := congrArg String.length h
  omega

/-- A singleton list is a suffix of `bs` iff it is the last element. -/
theorem singleton_isSuffixOf_iff (a : Nat) (bs : List Nat) :
    [a].isSuffixOf bs = true ↔ bs.getLast? = some a := by
  induction bs with
  | nil => simp [List.isSuffixOf]
  | cons b bs ih =>
    cases bs with
    | nil =>
      simp [List.isSuffixOf, List.isPrefixOf]
      exact eq_comm
    | cons c cs =>
      rw [List.getLast?_cons_cons]
      rw [← ih]
      constructor
      · intro h
        rcases (List.isSuffixOf_iff_suffix.mp h) with ⟨t, ht⟩
        cases t with
        | nil => simp at ht
        | cons x xs =>
          apply List.isSuffixOf_iff_suffix.mpr
          refine ⟨xs, ?_⟩
          have hsplit : x = b ∧ xs ++ [a] = c :: cs := by simpa using ht
          exact hsplit.2
      · intro h
        rcases (List.isSuffixOf_iff_suffix.mp h) with ⟨t, ht⟩
        apply List.isSuffixOf_iff_suffix.mpr
        exact ⟨b :: t, by simp [ht]⟩

/-- The two-byte CRLF suffix forces the last byte to be LF. -/
theorem crlf_suffix_last (bs : List Nat) (h : [cr, lf].isSuffixOf bs = true) :
    bs.getLast? = some lf := by
  rcases List.isSuffixOf_iff_suffix.mp h with ⟨t, ht⟩
  rw [← ht]
  rw [show t ++ [cr, lf] = (t ++ [cr]) ++ [lf] by simp]
  simp

/-- Characterisation: `endsWithNewline` holds exactly when the final byte is LF or CR. -/
theorem endsWithNewline_iff (bs : List Nat) :
    endsWithNewline bs = true ↔ (bs.getLast? = some lf ∨ bs.getLast? = some cr) := by
  unfold endsWithNewline
  constructor
  · intro h
    rcases Bool.or_eq_true_iff.mp h with h1 | h2
    · rcases Bool.or_eq_true_iff.mp h1 with ha | hb
      · exact Or.inl ((singleton_isSuffixOf_iff lf bs).mp ha)
      · exact Or.inl (crlf_suffix_last bs hb)
    · exact Or.inr ((singleton_isSuffixOf_iff cr bs).mp h2)
  · intro h
    rcases h with h | h
    · have := (singleton_isSuffixOf_iff lf bs).mpr h
      simp [this]
    · have := (singleton_isSuffixOf_iff cr bs).mpr h
      simp [this]

/-- Dropping all but one element of a non-empty list leaves the last one. -/
theorem drop_length_sub_one (bs : List Nat) (h : bs ≠ []) :
    ∃ a, bs.getLast? = some a ∧ bs.drop (bs.length - 1) = [a] := by
  induction bs with
  | nil => exact absurd rfl h
  | cons b bs ih =>
    cases bs with
    | nil => exact ⟨b, rfl, rfl⟩
    | cons c cs =>
      rcases ih (by simp) with ⟨a, ha, hd⟩
      refine ⟨a, ?_, ?_⟩
      · rw [List.getLast?_cons_cons]; exact ha
      · have hlen : (b :: c :: cs).length - 1 = (c :: cs).length - 1 + 1 := by
          simp
        rw [hlen, List.drop_succ_cons]
        exact hd

/-- Core lemma: `fix_eof_newline` on a readable, writable, non-empty, non-compliant
file appends one LF and reports success, leaving the failure maps alone. -/
theorem fix_noncompliant_core (f0 : FS) (p : String) (B : List Nat) (bk : Bool)
    (hB : f0.files p = some B) (hne : B ≠ [])
    (h10 : B.getLast? ≠ some lf) (h13 : B.getLast? ≠ some cr)
    (hcopy : f0.copyFails p = false) (hread : f0.readFails p = false)
    (hwrite : f0.writeFails p = false) :
    (fix_eof_newline f0 p bk).success = true ∧
    (fix_eof_newline f0 p bk).wrote = true ∧
    (fix_eof_newline f0 p bk).fs.files p = some (B ++ [lf]) ∧
    (fix_eof_newline f0 p bk).fs.copyFails = f0.copyFails ∧
    (fix_eof_newline f0 p bk).fs.readFails = f0.readFails ∧
    (fix_eof_newline f0 p bk).fs.writeFails = f0.writeFails := by
  have hends : endsWithNewline B = false := by
    cases hE : endsWithNewline B
    · rfl
    · rcases (endsWithNewline_iff B).mp hE with h | h
      · exact absurd h h10
      · exact absurd h h13
  have hpb : ¬ (p = backupPath p) := fun h => backupPath_ne p h.symm
  have hlen : ¬ (B.length = 0) := by simpa [List.length_eq_zero] using hne
  unfold fix_eof_newline
  cases bk
  · simp [hcopy, hread, hB, hends, hwrite, hlen]
  · simp [hcopy, hread, hB, hends, hwrite, hlen, hpb]

/-- Core lemma: `fix_eof_newline` on a readable file that is empty or already ends in
a newline succeeds without touching the original contents. -/
theorem fix_compliant_core (f0 : FS) (p : String) (B : List Nat) (bk : Bool)
    (hB : f0.files p = some B)
    (hend : B = [] ∨ endsWithNewline B = true)
    (hcopy : f0.copyFails p = false) (hread : f0.readFails p = false) :
    (fix_eof_newline f0 p bk).success = true ∧
    (fix_eof_newline f0 p bk).wrote = false ∧
    (fix_eof_newline f0 p bk).fs.files p = some B := by
  have hpb : ¬ (p = backupPath p) := fun h => backupPath_ne p h.symm
  unfold fix_eof_newline
  rcases hend with h | h
  · subst h
    cases bk
    · simp [hcopy, hread, hB]
    · simp [hcopy, hread, hB, hpb]
  · cases bk
    · simp [hcopy, hread, hB, h]
    · simp [hcopy, hread, hB, h, hpb]

/-- C1: for a file holding a non-empty byte sequence `B` whose last byte is
neither LF nor CR, `fix_eof_newline` (with or without backup, absent I/O
failures) succeeds and leaves the file containing exactly `B ++ [LF]`, and
a second call on the result succeeds without writing. -/
theorem fix_appends_newline_and_second_call_noop (f0 : FS) (p : String) (B : List Nat)
    (bk : Bool)
    (hB : f0.files p = some B) (hne : B ≠ [])
    (h10 : B.getLast? ≠ some lf) (h13 : B.getLast? ≠ some cr)
    (hcopy : f0.copyFails p = false) (hread : f0.readFails p = false)
    (hwrite : f0.writeFails p = false) :
    ((fix_eof_newline f0 p bk).success = true ∧
     (fix_eof_newline f0 p bk).fs.files p = some (B ++ [lf])) ∧
    ((fix_eof_newline ((fix_eof_newline f0 p bk).fs) p bk).success = true ∧
     (fix_eof_newline ((fix_eof_newline f0 p bk).fs) p bk).wrote = false ∧
     (fix_eof_newline ((fix_eof_newline f0 p bk).fs) p bk).fs.files p = some (B ++ [lf])) := by
  obtain ⟨hs, hw, hf, hcp, hrd, hwr⟩ :=
    fix_noncompliant_core f0 p B bk hB hne h10 h13 hcopy hread hwrite
  refine ⟨⟨hs, hf⟩, ?_⟩
  apply fix_compliant_core ((fix_eof_newline f0 p bk).fs) p (B ++ [lf]) bk hf
  · right
    exact (endsWithNewline_iff (B ++ [lf])).mpr (Or.inl (List.getLast?_concat B))
  · rw [hcp]; exact hcopy
  · rw [hrd]; exact hread

/-- Closed instance of C1: fixing a two-byte file `notes.txt` (with backup)
appends LF, and the repeated fix does not write. -/
theorem fix_appends_newline_and_second_call_noop_witness :
    (fix_eof_newline demoFS "notes.txt" true).fs.files "notes.txt" = some [104, 105, lf] ∧
    (fix_eof_newline ((fix_eof_newline demoFS "notes.txt" true).fs) "notes.txt" true).success
      = true ∧
    (fix_eof_newline ((fix_eof_newline demoFS "notes.txt" true).fs) "notes.txt" true).wrote
      = false := by
  obtain ⟨h1, h2⟩ :=
    fix_appends_newline_and_second_call_noop demoFS "notes.txt" [104, 105] true
      (by decide) (by decide) (by decide) (by decide) rfl rfl rfl
  exact ⟨h1.2, h2.1, h2.2.1⟩

/-- C2: on a readable file, `has_eof_newline` is true exactly when the file
is empty or its final byte is LF or CR (which subsumes a CRLF ending). -/
theorem has_eof_newline_spec (bs : List Nat) :
    has_eof_newline (some bs) = true ↔
      (bs = [] ∨ bs.getLast? = some lf ∨ bs.getLast? = some cr) := by
  unfold has_eof_newline
  by_cases h : bs = []
  · subst h; simp
  · rcases drop_length_sub_one bs h with ⟨a, ha, hd⟩
    show (if bs.length = 0 then true
          else
            (bs.drop (bs.length - 1) == [lf]) || (bs.drop (bs.length - 1) == [cr, lf]) ||
              (bs.drop (bs.length - 1) == [cr])) = true ↔ _
    rw [if_neg (by simpa [List.length_eq_zero] using h)]
    rw [hd]
    simp [ha, h]

/-- Closed instance of C2: a file ending in CR is compliant, a file ending
in a letter is not. -/
theorem has_eof_newline_spec_witness :
    has_eof_newline (some [65, cr]) = true ∧ has_eof_newline (some [65, 66]) = false := by
  constructor
  · exact (has_eof_newline_spec [65, cr]).mpr (by decide)
  · cases hb : has_eof_newline (some [65, 66])
    · rfl
    · exact absurd ((has_eof_newline_spec [65, 66]).mp hb) (by decide)

/-- C6: when classification reaches the content heuristic (extension and
name do not qualify), an I/O failure makes `should_check_file` return
false, and an I/O failure during the trailing-newline check makes
`has_eof_newline` return false; neither raises. -/
theorem io_failures_fixed_results (name : String)
    (h1 : lowerStr (pySuffix name) ∉ text_extensions)
    (h2 : name ∉ special_files) :
    should_check_file name none = false ∧ has_eof_newline none = false := by
  refine ⟨?_, rfl⟩
  unfold should_check_file
  rw [if_neg h1, if_neg h2]

/-- Closed instance of C6 at the unreadable file `data.bin`. -/
theorem io_failures_fixed_results_witness :
    should_check_file "data.bin" none = false ∧ has_eof_newline none = false :=
  io_failures_fixed_results "data.bin" (by decide) (by decide)

/-- C7: when the extension is not allow-listed and the name is not special,
`should_check_file` is the content heuristic: an empty file is checkable, a
null byte within the first 1024 bytes makes it non-checkable, and its
absence makes it checkable. -/
theorem should_check_content_heuristic (name : String) (bs : List Nat)
    (h1 : lowerStr (pySuffix name) ∉ text_extensions)
    (h2 : name ∉ special_files) :
    (bs = [] → should_check_file name (some bs) = true) ∧
    ((bs.take 1024).contains 0 = true → should_check_file name (some bs) = false) ∧
    ((bs.take 1024).contains 0 = false → should_check_file name (some bs) = true) := by
  have hcore : should_check_file name (some bs) =
      (if (bs.take 1024).length = 0 then true else !((bs.take 1024).contains 0)) := by
    unfold should_check_file
    rw [if_neg h1, if_neg h2]
  refine ⟨?_, ?_, ?_⟩
  · intro h
    subst h
    rw [hcore]
    rfl
  · intro h
    have hne : ¬ ((bs.take 1024).length = 0) := by
      intro hlen
      rw [List.length_eq_zero] at hlen
      rw [hlen] at h
      simp [List.contains] at h
    rw [hcore, if_neg hne, h]
    rfl
  · intro h
    rw [hcore]
    by_cases hlen : (bs.take 1024).length = 0
    · rw [if_pos hlen]
    · rw [if_neg hlen, h]
      rfl

/-- Closed instance of C7: a null byte in the sample of `core.dump` rules
it out, its absence keeps it. -/
theorem should_check_content_heuristic_witness :
    should_check_file "core.dump" (some [1, 0, 2]) = false ∧
    should_check_file "core.dump" (some [1, 2]) = true :=
  ⟨(should_check_content_heuristic "core.dump" [1, 0, 2] (by decide) (by decide)).2.1
     (by decide),
   (should_check_content_heuristic "core.dump" [1, 2] (by decide) (by decide)).2.2
     (by decide)⟩

/-- C9: with backup enabled and the copy succeeding, `fix_eof_newline`
writes the backup before the emptiness and compliance checks, so the
backup exists afterwards whatever the content was (empty and compliant
files included). -/
theorem fix_backup_written_unconditionally (f0 : FS) (p : String) (B : List Nat)
    (hB : f0.files p = some B) (hcopy : f0.copyFails p = false) :
    (fix_eof_newline f0 p true).fs.files (backupPath p) = some B := by
  have hbp : ¬ (backupPath p = p) := backupPath_ne p
  unfold fix_eof_newline
  simp only [hcopy, hB, Option.isNone_some, Bool.or_false, Bool.and_false, Bool.false_and,
    Bool.and_self, if_false, Bool.false_eq_true, ite_false]
  simp [hB, hbp]
  split
  · simp
  · split
    · simp
    · split
      · simp
      · split
        · simp
        · simp [hbp]

/-- Closed instance of C9: fixing the empty file `empty.txt` with backup
still creates `empty.txt.bak`. -/
theorem fix_backup_written_unconditionally_witness :
    (fix_eof_newline demoEmptyFS "empty.txt" true).fs.files (backupPath "empty.txt")
      = some [] :=
  fix_backup_written_unconditionally demoEmptyFS "empty.txt" [] (by decide) rfl

/-- C10: when the backup copy raises, `fix_eof_newline` reports failure and
returns before any write, leaving every file (the original included)
unchanged. -/
theorem fix_copy_failure_leaves_files_unchanged (f0 : FS) (p : String)
    (hcopy : f0.copyFails p = true) :
    (fix_eof_newline f0 p true).success = false ∧
    (fix_eof_newline f0 p true).wrote = false ∧
    (fix_eof_newline f0 p true).fs.files = f0.files := by
  unfold fix_eof_newline
  simp [hcopy]

/-- Closed instance of C10 at `notes.txt` whose backup copy raises. -/
theorem fix_copy_failure_leaves_files_unchanged_witness :
    (fix_eof_newline demoCopyFailFS "notes.txt" true).success = false ∧
    (fix_eof_newline demoCopyFailFS "notes.txt" true).wrote = false ∧
    (fix_eof_newline demoCopyFailFS "notes.txt" true).fs.files = demoCopyFailFS.files :=
  fix_copy_failure_leaves_files_unchanged demoCopyFailFS "notes.txt" (by decide)

/-- Membership in an ordered insertion. -/
theorem mem_insertPath (x y : List String) (l : List (List String)) :
    y ∈ insertPath x l ↔ y = x ∨ y ∈ l := by
  induction l with
  | nil => simp [insertPath]
  | cons z zs ih =>
    unfold insertPath
    split
    · simp only [List.mem_cons, ih]
      tauto
    · simp only [List.mem_cons]

/-- Sorting the discovered paths preserves membership. -/
theorem mem_sortPaths (y : List String) (l : List (List String)) :
    y ∈ sortPaths l ↔ y ∈ l := by
  induction l with
  | nil => simp [sortPaths]
  | cons z zs ih => simp [sortPaths, mem_insertPath, ih]

mutual

/-- Any path produced by the walk below `pre` extends `pre` by components
of which none but the last (the filename) matches an exclude pattern, and
whose filename passed the file-level filter against the full relative
path. -/
theorem discoverAux_sound (excl incl : List String) (pre : List String) (t : FSTree)
    (rel : List String) (h : rel ∈ discoverAux excl incl pre t) :
    ∃ suf name content, rel = pre ++ suf ∧ suf.getLast? = some name ∧
      (∀ d ∈ suf.dropLast, anyMatch excl d = false) ∧
      keepFile excl incl (joinRel rel) name content = true := by
  match t with
  | .node fils dirs =>
    rw [discoverAux] at h
    rcases List.mem_append.mp h with hl | hr
    · rcases List.mem_map.mp hl with ⟨f, hf, hrel⟩
      rcases List.mem_filter.mp hf with ⟨_, hkeep⟩
      refine ⟨[f.1], f.1, f.2, hrel.symm, rfl, by simp, ?_⟩
      rw [hrel] at hkeep
      exact hkeep
    · exact discoverDirs_sound excl incl pre dirs rel hr

/-- Companion of `discoverAux_sound` for the pruned subdirectory list. -/
theorem discoverDirs_sound (excl incl : List String) (pre : List String)
    (ds : List (String × FSTree)) (rel : List String)
    (h : rel ∈ discoverDirs excl incl pre ds) :
    ∃ suf name content, rel = pre ++ suf ∧ suf.getLast? = some name ∧
      (∀ d ∈ suf.dropLast, anyMatch excl d = false) ∧
      keepFile excl incl (joinRel rel) name content = true := by
  match ds with
  | [] =>
    rw [discoverDirs] at h
    exact absurd h (List.not_mem_nil rel)
  | (d, t) :: rest =>
    rw [discoverDirs] at h
    rcases List.mem_append.mp h with hl | hr
    · cases hc : anyMatch excl d with
      | true =>
        rw [hc] at hl
        simp at hl
      | false =>
        rw [hc] at hl
        simp at hl
        obtain ⟨suf, name, content, heq, hlast, hdrop, hkeep⟩ :=
          discoverAux_sound excl incl (pre ++ [d]) t rel hl
        have hsne : suf ≠ [] := by
          intro hnil
          rw [hnil] at hlast
          exact Option.noConfusion hlast
        refine ⟨d :: suf, name, content, by simp [heq], ?_, ?_, hkeep⟩
        · cases suf with
          | nil => exact absurd rfl hsne
          | cons s ss => rw [List.getLast?_cons_cons]; exact hlast
        · intro x hx
          cases suf with
          | nil => exact absurd rfl hsne
          | cons s ss =>
            rw [List.dropLast_cons₂] at hx
            rcases List.mem_cons.mp hx with hxd | hxs
            · rw [hxd]; exact hc
            · exact hdrop x hxs
    · exact discoverDirs_sound excl incl pre rest rel hr

end

/-- C4: `discover_files` never returns a path lying inside a directory
whose name matches an exclude glob: excluded directories are pruned during
traversal, so every directory component of a returned relative path
matches no exclude pattern (user-supplied or default). -/
theorem discover_never_inside_excluded_dir (t : FSTree) (inclP exclP : List String)
    (rel : List String) (h : rel ∈ discover_files t inclP exclP) :
    ∀ d ∈ rel.dropLast, anyMatch (exclP ++ default_excludes) d = false := by
  unfold discover_files at h
  rw [mem_sortPaths] at h
  obtain ⟨suf, name, content, heq, hlast, hdrop, hkeep⟩ :=
    discoverAux_sound (exclP ++ default_excludes)
      (if inclP.isEmpty then ["*"] else inclP) [] t rel h
  rw [List.nil_append] at heq
  rw [heq]
  exact hdrop

/-- Closed instance of C4: the kept path `d/a.txt` has no directory
component matching the exclude list `d/*` plus defaults (and the planted
file under `build` in `demoTreeBuild` is indeed absent, see the witness
hypothesis discharge for `a.py`). -/
theorem discover_never_inside_excluded_dir_witness :
    anyMatch (["d/*"] ++ default_excludes) "d" = false :=
  discover_never_inside_excluded_dir demoTreeD [] ["d/*"] ["d", "a.txt"]
    (by decide) "d" (by decide)

/-- C5: every file kept by `discover_files` has a bare filename matching no
exclude pattern while its name or relative path matches an include
pattern; and exclude patterns are never applied to relative paths, so a
file whose relative path matches an exclude glob can still be kept. -/
theorem discover_exclude_on_names_include_on_names_or_relpaths :
    (∀ (t : FSTree) (inclP exclP : List String) (rel : List String),
      rel ∈ discover_files t inclP exclP →
      ∃ name, rel.getLast? = some name ∧
        anyMatch (exclP ++ default_excludes) name = false ∧
        (anyMatch (if inclP.isEmpty then ["*"] else inclP) name = true ∨
         anyMatch (if inclP.isEmpty then ["*"] else inclP) (joinRel rel) = true)) ∧
    (∃ (t : FSTree) (exclP : List String) (rel : List String),
      rel ∈ discover_files t [] exclP ∧
      anyMatch (exclP ++ default_excludes) (joinRel rel) = true) := by
  constructor
  · intro t inclP exclP rel h
    unfold discover_files at h
    rw [mem_sortPaths] at h
    obtain ⟨suf, name, content, heq, hlast, hdrop, hkeep⟩ :=
      discoverAux_sound (exclP ++ default_excludes)
        (if inclP.isEmpty then ["*"] else inclP) [] t rel h
    rw [List.nil_append] at heq
    subst heq
    rw [keepFile, Bool.and_eq_true, Bool.and_eq_true, Bool.not_eq_true',
      Bool.or_eq_true] at hkeep
    exact ⟨name, hlast, hkeep.1.1, hkeep.1.2⟩
  · exact ⟨demoTreeD, ["d/*"], ["d", "a.txt"], by decide, by decide⟩

/-- Closed instance of C5 at the kept file `d/a.txt` of `demoTreeD` with
no user patterns. -/
theorem discover_exclude_on_names_include_on_names_or_relpaths_witness :
    ∃ name, (["d", "a.txt"] : List String).getLast? = some name ∧
      anyMatch ([] ++ default_excludes) name = false ∧
      (anyMatch (if ([] : List String).isEmpty then ["*"] else ([] : List String)) name
          = true ∨
       anyMatch (if ([] : List String).isEmpty then ["*"] else ([] : List String))
          (joinRel ["d", "a.txt"]) = true) :=
  discover_exclude_on_names_include_on_names_or_relpaths.1 demoTreeD [] [] ["d", "a.txt"]
    (by decide)

/-- The non-compliant partition of `check_files` is empty exactly when
every file passes `has_eof_newline`. -/
theorem check_files_noncompliant_empty_iff (files : List (String × Option (List Nat)))
    (sd : Bool) :
    (check_files files sd).2.1 = [] ↔ files.all (fun f => has_eof_newline f.2) = true := by
  induction files with
  | nil => simp [check_files]
  | cons f rest ih =>
    unfold check_files
    cases hc : has_eof_newline f.2 <;> simp [hc, ih]

/-- Without `--show-details`, `check_files` prints nothing. -/
theorem check_files_no_details (files : List (String × Option (List Nat))) :
    (check_files files false).2.2 = [] := by
  induction files with
  | nil => simp [check_files]
  | cons f rest ih =>
    unfold check_files
    cases hc : has_eof_newline f.2 <;> simp [hc, ih]

/-- With `--show-details`, every non-compliant file gets a marker line. -/
theorem check_files_detailBad_mem (files : List (String × Option (List Nat)))
    (f : String × Option (List Nat)) (hf : f ∈ files)
    (hbad : has_eof_newline f.2 = false) :
    OutLine.detailBad f.1 ∈ (check_files files true).2.2 := by
  induction files with
  | nil => exact absurd hf (List.not_mem_nil f)
  | cons g rest ih =>
    unfold check_files
    rcases List.mem_cons.mp hf with hfg | hfr
    · subst hfg
      rw [hbad]
      simp
    · cases hc : has_eof_newline g.2 <;> simp [hc, ih hfr]

/-- C8: in `--check` mode the exit code is 0 exactly when every checked
file is compliant (an empty selection exits 0), and 1 otherwise. -/
theorem check_mode_exit_codes (q sd bk : Bool) (fp ff ea : Option String)
    (files : List (String × Option (List Nat))) :
    (mainCheck q sd bk fp ff ea files).2 =
      if files.all (fun f => has_eof_newline f.2) then 0 else 1 := by
  cases files with
  | nil => simp [mainCheck]
  | cons f rest =>
    have hiff := check_files_noncompliant_empty_iff (f :: rest) sd
    unfold mainCheck
    by_cases hall : (f :: rest).all (fun x => has_eof_newline x.2) = true
    · have hemp : (check_files (f :: rest) sd).2.1 = [] := hiff.mpr hall
      simp [hemp, hall]
    · have hne : (check_files (f :: rest) sd).2.1 ≠ [] := fun hh => hall (hiff.mp hh)
      simp only [Bool.not_eq_true] at hall
      simp [hall, hne]

/-- C3 counterexample: a quiet `--check` run over the single non-compliant
file `b.py` (without `--show-details`) exits 1 but prints no line naming
any file — the non-compliant file list is suppressed by `--quiet`. -/
theorem quiet_check_omits_noncompliant_list_cex :
    (mainCheck true false false none none none [("b.py", some [98])]).2 = 1 ∧
    ((mainCheck true false false none none none [("b.py", some [98])]).1.filter namesFile)
      = [] ∧
    OutLine.missingFile "b.py" ∉
      (mainCheck true false false none none none [("b.py", some [98])]).1 := by
  decide

/-- C3 amended: in `--check` mode with `--quiet` set and at least one
non-compliant file, the run still prints the remediation hint and exits 1,
but the non-compliant file list is printed only when `--show-details` is
set (as per-file markers); without it no output line names a file. -/
theorem quiet_check_failure_hint_and_exit (sd bk : Bool) (fp ff ea : Option String)
    (files : List (String × Option (List Nat)))
    (h : files.any (fun f => !(has_eof_newline f.2)) = true) :
    (mainCheck true sd bk fp ff ea files).2 = 1 ∧
    OutLine.fixHint ∈ (mainCheck true sd bk fp ff ea files).1 ∧
    (sd = false → (mainCheck true sd bk fp ff ea files).1.filter namesFile = []) ∧
    (sd = true → ∀ f ∈ files, has_eof_newline f.2 = false →
      OutLine.detailBad f.1 ∈ (mainCheck true sd bk fp ff ea files).1) := by
  have hnonemp : files ≠ [] := by
    intro hnil
    rw [hnil] at h
    simp at h
  have hnc : (check_files files sd).2.1 ≠ [] := by
    intro hh
    have hall := (check_files_noncompliant_empty_iff files sd).mp hh
    rcases List.any_eq_true.mp h with ⟨f, hf, hbad⟩
    have := List.all_eq_true.mp hall f hf
    simp at hbad
    rw [this] at hbad
    exact Bool.noConfusion hbad
  cases files with
  | nil => exact absurd rfl hnonemp
  | cons g rest =>
    unfold mainCheck
    simp only [List.isEmpty_cons, Bool.false_eq_true, if_false, Bool.not_true, Bool.false_and,
      Bool.and_false, if_true, ite_true, ite_false]
    rw [if_neg (by simpa [List.isEmpty_iff] using hnc)]
    refine ⟨rfl, ?_, ?_, ?_⟩
    · simp
    · intro hsd
      subst hsd
      rw [check_files_no_details (g :: rest)]
      cases bk <;> simp [namesFile]
    · intro hsd f hf hbad
      subst hsd
      have := check_files_detailBad_mem (g :: rest) f hf hbad
      simp [this]

/-- Closed instance of the amended C3 at the quiet failing run over
`b.py`. -/
theorem quiet_check_failure_hint_and_exit_witness :
    (mainCheck true false false none none none [("b.py", some [98])]).2 = 1 ∧
    OutLine.fixHint ∈ (mainCheck true false false none none none [("b.py", some [98])]).1 := by
  obtain ⟨h1, h2, h3, h4⟩ :=
    quiet_check_failure_hint_and_exit false false none none none [("b.py", some [98])]
      (by decide)
  exact ⟨h1, h2⟩

end EOFCheck
